import Mathlib

/-!
Verification of the pattern-destructuring / template-tag evaluator described
in the repository's design notes (spec sections 2-4 and 7-8).  The repository
itself contains only illustrative language-feature snippets
(src/05-destructuring.js, src/03-functions.js, tagged-template notes); the
Pattern Matcher and Template Tag Invoker are specified but not implemented
there, so the definitions below are modelled from the spec's words, grounded
in the semantics the snippets demonstrate.
-/

/-- Modelled from the spec: runtime values of the host scripting language, as
far as the matcher observes them.  `undef` is the spec's single
"missing" / "nullish" sentinel (glossary: the root absent-value marker that
makes any field access invalid; section 4.1: the sentinel bound when an
optional field is missing).  Objects are ordered key/value field lists and
arrays are ordered element sequences, mirroring the object and array literals
used throughout src/05-destructuring.js. -/
inductive Value where
  | undef : Value
  | num : Int → Value
  | str : String → Value
  | bool : Bool → Value
  | arr : List Value → Value
  | obj : List (String × Value) → Value

/-- Modelled from the spec (section 9): a default expression is a deferred
computation evaluated at match time against the partial binding result so
far; it is either a constant or a reference to an earlier binding (mirroring
`second = first` in src/03-functions.js). -/
inductive DefExpr where
  | const : Value → DefExpr
  | ref : String → DefExpr

mutual

/-- Modelled from the spec (section 3): a pattern is an object pattern or an
array pattern, each holding an ordered list of elements. -/
inductive Pattern where
  | ObjectPattern : PatList → Pattern
  | ArrayPattern : PatList → Pattern

/-- An ordered pattern-element list (spelled out as its own inductive so the
mutual recursion with `Pattern` stays structural). -/
inductive PatList where
  | nil : PatList
  | cons : PatElem → PatList → PatList

/-- Modelled from the spec (section 3): the four pattern-element variants.
`Name id dflt` binds a value directly to `id` (by key `id` in an object
pattern, by position in an array pattern), `Rename key id dflt` reads field
`key` and binds `id`, `Nested key sub` applies a sub-pattern to field `key`
(by position in an array pattern, where `key` is ignored), and
`RestCapture id` binds all remaining elements or fields. -/
inductive PatElem where
  | Name : String → Option DefExpr → PatElem
  | Rename : String → String → Option DefExpr → PatElem
  | Nested : String → Pattern → PatElem
  | RestCapture : String → PatElem

end

/-- Modelled from the spec (section 7): the error taxonomy.  `NullishSource`
is the sole evaluation error; the others are eager construction errors
(malformed rest capture, forward-referencing default, mismatched
literal/substitution counts). -/
inductive MatchError where
  | NullishSource : MatchError
  | ForwardReference : MatchError
  | MalformedRest : MatchError
  | CountMismatch : MatchError
deriving DecidableEq

/-- Modelled from the spec (section 3): the binding result is a mapping from
identifier to resolved value, insertion order equal to pattern declaration
order. -/
abbrev BindingResult : Type := List (String × Value)

/-- Field lookup in an ordered object field list (first occurrence wins). -/
def lookupField : List (String × Value) → String → Option Value
  | [], _ => none
  | (k, v) :: rest, key => if k = key then some v else lookupField rest key

/-- Read a named field of a value: objects expose their fields, every other
value has no fields (reading one yields "absent"). -/
def getField : Value → String → Option Value
  | .obj fields, key => lookupField fields key
  | _, _ => none

/-- The ordered element sequence of a value: arrays expose their elements,
every other value has none. -/
def elemsOf : Value → List Value
  | .arr xs => xs
  | _ => []

/-- The ordered field list of a value (empty for non-objects). -/
def fieldsOf : Value → List (String × Value)
  | .obj fields => fields
  | _ => []

/-- Whether a value is the nullish sentinel. -/
def isNullish : Value → Bool
  | .undef => true
  | _ => false

/-- Evaluate a default expression against the partial binding result so far
(spec section 9: defaults are deferred closures over the partial result). -/
def evalDef : DefExpr → BindingResult → Value
  | .const v, _ => v
  | .ref n, env => (lookupField env n).getD Value.undef

/-- Resolve an optional default: evaluate it when present, otherwise yield
the sentinel itself (spec section 4.1: "otherwise bind the sentinel itself,
no error"). -/
def applyDefault : Option DefExpr → BindingResult → Value
  | some d, env => evalDef d env
  | none, _ => Value.undef

/-- Modelled from the spec (section 4.1, Name/Rename bullet): the leaf
resolution rule.  If the corresponding field is absent or equal to the
missing sentinel, the default (when present) is evaluated and bound,
otherwise the sentinel itself is bound; a present non-sentinel value is
bound unchanged. -/
def resolveLeaf (found : Option Value) (dflt : Option DefExpr) (env : BindingResult) : Value :=
  match found with
  | some v => if isNullish v then applyDefault dflt env else v
  | none => applyDefault dflt env

mutual

/-- Modelled from the spec (section 4.1): the evaluation half of
`match(pattern, value)`.  A nullish source fails immediately with
`NullishSource` (section 7); otherwise the element list is walked in
declaration order, threading the bindings accumulated so far (`env`) so that
defaults can see earlier bindings. -/
def evalPat : Pattern → Value → BindingResult → Except MatchError BindingResult
  | .ObjectPattern elems, v, env =>
    if isNullish v then .error .NullishSource else evalObj elems v [] env
  | .ArrayPattern elems, v, env =>
    if isNullish v then .error .NullishSource else evalArr elems (elemsOf v) 0 env

/-- Walk an object pattern's elements against source `src`.  `consumed`
collects the field keys already consumed by preceding named patterns at this
level, so that a final rest capture binds exactly the unconsumed own fields
(spec section 4.1, object RestCapture bullet). -/
def evalObj : PatList → Value → List String → BindingResult → Except MatchError BindingResult
  | .nil, _, _, env => .ok env
  | .cons (.Name id dflt) rest, src, consumed, env =>
    evalObj rest src (id :: consumed) (env ++ [(id, resolveLeaf (getField src id) dflt env)])
  | .cons (.Rename key id dflt) rest, src, consumed, env =>
    evalObj rest src (key :: consumed) (env ++ [(id, resolveLeaf (getField src key) dflt env)])
  | .cons (.Nested key sub) rest, src, consumed, env =>
    match evalPat sub ((getField src key).getD Value.undef) env with
    | .error e => .error e
    | .ok env2 => evalObj rest src (key :: consumed) env2
  | .cons (.RestCapture id) rest, src, consumed, env =>
    evalObj rest src consumed
      (env ++ [(id, Value.obj ((fieldsOf src).filter (fun kv => !(consumed.contains kv.1))))])

/-- Walk an array pattern's elements against the source element sequence
`xs`, position `i` counting from the start.  A rest capture binds a new
ordered sequence of all elements from the current position to the end (spec
section 4.1, array RestCapture bullet). -/
def evalArr : PatList → List Value → Nat → BindingResult → Except MatchError BindingResult
  | .nil, _, _, env => .ok env
  | .cons (.Name id dflt) rest, xs, i, env =>
    evalArr rest xs (i + 1) (env ++ [(id, resolveLeaf (xs.get? i) dflt env)])
  | .cons (.Rename _ id dflt) rest, xs, i, env =>
    evalArr rest xs (i + 1) (env ++ [(id, resolveLeaf (xs.get? i) dflt env)])
  | .cons (.Nested _ sub) rest, xs, i, env =>
    match evalPat sub ((xs.get? i).getD Value.undef) env with
    | .error e => .error e
    | .ok env2 => evalArr rest xs (i + 1) env2
  | .cons (.RestCapture id) rest, xs, i, env =>
    evalArr rest xs (i + 1) (env ++ [(id, Value.arr (xs.drop i))])

end

mutual

/-- The identifiers a pattern declares, in declaration order. -/
def declaredNames : Pattern → List String
  | .ObjectPattern l => declaredNamesList l
  | .ArrayPattern l => declaredNamesList l

/-- The identifiers declared by a pattern-element list, in order. -/
def declaredNamesList : PatList → List String
  | .nil => []
  | .cons e rest => declaredNamesElem e ++ declaredNamesList rest

/-- The identifiers declared by one pattern element. -/
def declaredNamesElem : PatElem → List String
  | .Name id _ => [id]
  | .Rename _ id _ => [id]
  | .Nested _ sub => declaredNames sub
  | .RestCapture id => [id]

end

mutual

/-- Whether a pattern contains a rest capture anywhere. -/
def hasRest : Pattern → Bool
  | .ObjectPattern l => hasRestList l
  | .ArrayPattern l => hasRestList l

/-- Whether a pattern-element list contains a rest capture anywhere. -/
def hasRestList : PatList → Bool
  | .nil => false
  | .cons e rest => hasRestElem e || hasRestList rest

/-- Whether one pattern element is or contains a rest capture. -/
def hasRestElem : PatElem → Bool
  | .Nested _ sub => hasRest sub
  | .RestCapture _ => true
  | _ => false

end

mutual

/-- Modelled from the spec (section 3 invariant): within one object or array
pattern, at most one rest capture and it must be the final element; checked
recursively through nested sub-patterns. -/
def restLastOk : Pattern → Bool
  | .ObjectPattern l => restLastOkList l
  | .ArrayPattern l => restLastOkList l

/-- The rest-position check on one pattern-element list. -/
def restLastOkList : PatList → Bool
  | .nil => true
  | .cons (.RestCapture _) .nil => true
  | .cons (.RestCapture _) (.cons _ _) => false
  | .cons (.Name _ _) rest => restLastOkList rest
  | .cons (.Rename _ _ _) rest => restLastOkList rest
  | .cons (.Nested _ sub) rest => restLastOk sub && restLastOkList rest

end

/-- The identifiers a default expression references. -/
def refsOf : DefExpr → List String
  | .const _ => []
  | .ref n => [n]

/-- The identifiers an optional default references. -/
def refsOfOpt : Option DefExpr → List String
  | some d => refsOf d
  | none => []

/-- Whether every referenced identifier is among the already-bound names. -/
def refsSub (rs bound : List String) : Bool :=
  rs.all (fun r => bound.contains r)

mutual

/-- Modelled from the spec (section 4.1): defaults reference only bindings
already produced earlier in the same pattern list (left-to-right); each
nested sub-pattern is checked against its own list. -/
def defsOk : Pattern → Bool
  | .ObjectPattern l => defsOkList l []
  | .ArrayPattern l => defsOkList l []

/-- The left-to-right forward-reference check on one pattern-element list,
`bound` being the names declared by the elements already passed. -/
def defsOkList : PatList → List String → Bool
  | .nil, _ => true
  | .cons e rest, bound =>
    elemDefOk e bound && defsOkList rest (bound ++ declaredNamesElem e)

/-- The forward-reference check on one pattern element. -/
def elemDefOk : PatElem → List String → Bool
  | .Name _ dflt, bound => refsSub (refsOfOpt dflt) bound
  | .Rename _ _ dflt, bound => refsSub (refsOfOpt dflt) bound
  | .Nested _ sub, _ => defsOk sub
  | .RestCapture _, _ => true

end

/-- Modelled from the spec (section 7): eager pattern construction.  A
malformed rest capture or a forward-referencing default is detected here,
fatally, before any matching takes place; a well-formed pattern is returned
unchanged (patterns are immutable once constructed). -/
def construct (p : Pattern) : Except MatchError Pattern :=
  if restLastOk p then
    if defsOk p then .ok p else .error .ForwardReference
  else .error .MalformedRest

/-- Modelled from the spec (section 4.1 contract):
`match(pattern, value) -> Result<BindingResult, MatchError>`.  Construction
errors are reported before any matching; evaluation then starts with no
bindings. -/
def matchPattern (p : Pattern) (v : Value) : Except MatchError BindingResult :=
  match construct p with
  | .error e => .error e
  | .ok q => evalPat q v []

/-- Modelled from the spec (section 4.2): the literals sequence object passed
as the tag function's first argument, exposing the cooked values (default
view) and the raw values (secondary named view), mirroring the
`literals` / `literals.raw` pair described in the tagged-template notes. -/
structure TemplateLiterals where
  cooked : List String
  raw : List String

/-- Modelled from the spec (section 4.2): the Template Tag Invoker contract
`invoke(rawLiterals, cookedLiterals, substitutions, tagFunction)`.  The
count invariant `cooked.length = raw.length = substitutions.length + 1` is
checked before invocation; a violation is a fatal construction error and the
tag function is never called.  On success the tag function's return value is
passed through unchanged. -/
def invoke {α : Type} (rawLiterals cookedLiterals : List String)
    (substitutions : List Value)
    (tagFunction : TemplateLiterals → List Value → α) : Except MatchError α :=
  if cookedLiterals.length = rawLiterals.length
      ∧ cookedLiterals.length = substitutions.length + 1 then
    .ok (tagFunction ⟨cookedLiterals, rawLiterals⟩ substitutions)
  else .error .CountMismatch

/-- Modelled from the spec: the host language's string conversion applied to
substitution values.  The spec leaves this to the host runtime; scalar
conversions follow the host language and composite conversions are
abbreviated to fixed markers, which is all the round-trip property needs. -/
def valueToString : Value → String
  | .undef => "undefined"
  | .num n => toString n
  | .str s => s
  | .bool b => if b then "true" else "false"
  | .arr _ => "<array>"
  | .obj _ => "<object>"

/-- Modelled from the spec (section 3): the original interpolated string a
template invocation denotes, alternating literal segments and converted
substitution values, starting and ending with a literal. -/
def originalString : List String → List Value → String
  | [], _ => ""
  | l :: _, [] => l
  | l :: ls, s :: ss => l ++ valueToString s ++ originalString ls ss

/-- The concatenating tag function from the spec's round-trip property
(section 8): concatenates each cooked literal with the string conversion of
the substitution that follows it, written the way a tag author would, by
zipping the cooked view with the padded substitution strings. -/
def concatTag (lits : TemplateLiterals) (subs : List Value) : String :=
  String.join ((lits.cooked.zip (subs.map valueToString ++ [""])).map
    (fun pr => pr.1 ++ pr.2))

/-- The concrete pattern of section 8's example, spelled x-only: an object
pattern binding only `x`. -/
def pxOnly : Pattern :=
  .ObjectPattern (.cons (.Name "x" none) .nil)

/-- The concrete pattern of claim C2's example: the object pattern used for
`node` in src/05-destructuring.js, declaring `type` and `name`. -/
def elemsC2 : PatList :=
  .cons (.Name "type" none) (.cons (.Name "name" none) .nil)

/-- A node-like source object carrying an extra field beyond the pattern's
declared names. -/
def nodeC2 : Value :=
  .obj [("type", .str "Identifier"), ("name", .str "foo"), ("extra", .num 5)]

/-- The concrete array pattern of claim C3: two leading names and a final
rest capture. -/
def patC3 : Pattern :=
  .ArrayPattern (.cons (.Name "a" none)
    (.cons (.Name "b" none) (.cons (.RestCapture "rest") .nil)))

/-- The concrete object pattern of claim C4's example: a shorthand name and
a renamed field with default 10. -/
def patC4 : Pattern :=
  .ObjectPattern (.cons (.Name "a" none)
    (.cons (.Rename "b" "renamedB" (some (.const (.num 10)))) .nil))

/-- A malformed pattern: a rest capture followed by a further element
(misplaced rest, src/05-destructuring.js note that rest items must be the
last entry). -/
def badRestPat : Pattern :=
  .ArrayPattern (.cons (.RestCapture "r") (.cons (.Name "x" none) .nil))

/-- A forward-referencing pattern: the default of `a` references `b`, bound
only by a later element. -/
def fwdPat : Pattern :=
  .ObjectPattern (.cons (.Name "a" (some (.ref "b")))
    (.cons (.Name "b" none) .nil))

/-- The clone pattern of claim C10: an array pattern consisting of only a
rest capture. -/
def patClone : Pattern :=
  .ArrayPattern (.cons (.RestCapture "r") .nil)

theorem resolveLeaf_some_nodflt (v : Value) (env : BindingResult) :
    resolveLeaf (some v) none env = v := by
  cases v <;> rfl

mutual

theorem evalPat_error_nullish : ∀ (p : Pattern) (v : Value) (env : BindingResult)
    (e : MatchError), evalPat p v env = .error e → e = MatchError.NullishSource
  | .ObjectPattern l, v, env, e, h => by
    rw [evalPat] at h
    split at h
    · exact (Except.error.inj h).symm
    · exact evalObj_error_nullish l v [] env e h
  | .ArrayPattern l, v, env, e, h => by
    rw [evalPat] at h
    split at h
    · exact (Except.error.inj h).symm
    · exact evalArr_error_nullish l (elemsOf v) 0 env e h

theorem evalObj_error_nullish : ∀ (l : PatList) (src : Value) (c : List String)
    (env : BindingResult) (e : MatchError),
    evalObj l src c env = .error e → e = MatchError.NullishSource
  | .nil, src, c, env, e, h => by simp [evalObj] at h
  | .cons (.Name id d) rest, src, c, env, e, h =>
    evalObj_error_nullish rest src _ _ e (by rw [evalObj] at h; exact h)
  | .cons (.Rename k id d) rest, src, c, env, e, h =>
    evalObj_error_nullish rest src _ _ e (by rw [evalObj] at h; exact h)
  | .cons (.Nested k sub) rest, src, c, env, e, h => by
    rw [evalObj] at h
    cases hsub : evalPat sub ((getField src k).getD Value.undef) env with
    | error err =>
      rw [hsub] at h
      exact (Except.error.inj h) ▸ evalPat_error_nullish sub _ env err hsub
    | ok env2 =>
      rw [hsub] at h
      exact evalObj_error_nullish rest src _ env2 e h
  | .cons (.RestCapture id) rest, src, c, env, e, h =>
    evalObj_error_nullish rest src _ _ e (by rw [evalObj] at h; exact h)

theorem evalArr_error_nullish : ∀ (l : PatList) (xs : List Value) (i : Nat)
    (env : BindingResult) (e : MatchError),
    evalArr l xs i env = .error e → e = MatchError.NullishSource
  | .nil, xs, i, env, e, h => by simp [evalArr] at h
  | .cons (.Name id d) rest, xs, i, env, e, h =>
    evalArr_error_nullish rest xs _ _ e (by rw [evalArr] at h; exact h)
  | .cons (.Rename k id d) rest, xs, i, env, e, h =>
    evalArr_error_nullish rest xs _ _ e (by rw [evalArr] at h; exact h)
  | .cons (.Nested k sub) rest, xs, i, env, e, h => by
    rw [evalArr] at h
    cases hsub : evalPat sub ((xs.get? i).getD Value.undef) env with
    | error err =>
      rw [hsub] at h
      exact (Except.error.inj h) ▸ evalPat_error_nullish sub _ env err hsub
    | ok env2 =>
      rw [hsub] at h
      exact evalArr_error_nullish rest xs _ env2 e h
  | .cons (.RestCapture id) rest, xs, i, env, e, h =>
    evalArr_error_nullish rest xs _ _ e (by rw [evalArr] at h; exact h)

end

mutual

theorem evalPat_keys : ∀ (p : Pattern) (v : Value) (env bs : BindingResult),
    evalPat p v env = .ok bs →
    bs.map Prod.fst = env.map Prod.fst ++ declaredNames p
  | .ObjectPattern l, v, env, bs, h => by
    rw [evalPat] at h
    split at h
    · cases h
    · simpa [declaredNames] using evalObj_keys l v [] env bs h
  | .ArrayPattern l, v, env, bs, h => by
    rw [evalPat] at h
    split at h
    · cases h
    · simpa [declaredNames] using evalArr_keys l (elemsOf v) 0 env bs h

theorem evalObj_keys : ∀ (l : PatList) (src : Value) (c : List String)
    (env bs : BindingResult), evalObj l src c env = .ok bs →
    bs.map Prod.fst = env.map Prod.fst ++ declaredNamesList l
  | .nil, src, c, env, bs, h => by
    rw [evalObj] at h
    cases h
    simp [declaredNamesList]
  | .cons (.Name id d) rest, src, c, env, bs, h => by
    rw [evalObj] at h
    have ih := evalObj_keys rest src _ _ bs h
    simpa [declaredNamesList, declaredNamesElem, List.append_assoc] using ih
  | .cons (.Rename k id d) rest, src, c, env, bs, h => by
    rw [evalObj] at h
    have ih := evalObj_keys rest src _ _ bs h
    simpa [declaredNamesList, declaredNamesElem, List.append_assoc] using ih
  | .cons (.Nested k sub) rest, src, c, env, bs, h => by
    rw [evalObj] at h
    cases hsub : evalPat sub ((getField src k).getD Value.undef) env with
    | error err => rw [hsub] at h; cases h
    | ok env2 =>
      rw [hsub] at h
      have h1 := evalPat_keys sub _ env env2 hsub
      have ih := evalObj_keys rest src _ env2 bs h
      rw [ih, h1]
      simp [declaredNamesList, declaredNamesElem, List.append_assoc]
  | .cons (.RestCapture id) rest, src, c, env, bs, h => by
    rw [evalObj] at h
    have ih := evalObj_keys rest src _ _ bs h
    simpa [declaredNamesList, declaredNamesElem, List.append_assoc] using ih

theorem evalArr_keys : ∀ (l : PatList) (xs : List Value) (i : Nat)
    (env bs : BindingResult), evalArr l xs i env = .ok bs →
    bs.map Prod.fst = env.map Prod.fst ++ declaredNamesList l
  | .nil, xs, i, env, bs, h => by
    rw [evalArr] at h
    cases h
    simp [declaredNamesList]
  | .cons (.Name id d) rest, xs, i, env, bs, h => by
    rw [evalArr] at h
    have ih := evalArr_keys rest xs _ _ bs h
    simpa [declaredNamesList, declaredNamesElem, List.append_assoc] using ih
  | .cons (.Rename k id d) rest, xs, i, env, bs, h => by
    rw [evalArr] at h
    have ih := evalArr_keys rest xs _ _ bs h
    simpa [declaredNamesList, declaredNamesElem, List.append_assoc] using ih
  | .cons (.Nested k sub) rest, xs, i, env, bs, h => by
    rw [evalArr] at h
    cases hsub : evalPat sub ((xs.get? i).getD Value.undef) env with
    | error err => rw [hsub] at h; cases h
    | ok env2 =>
      rw [hsub] at h
      have h1 := evalPat_keys sub _ env env2 hsub
      have ih := evalArr_keys rest xs _ env2 bs h
      rw [ih, h1]
      simp [declaredNamesList, declaredNamesElem, List.append_assoc]
  | .cons (.RestCapture id) rest, xs, i, env, bs, h => by
    rw [evalArr] at h
    have ih := evalArr_keys rest xs _ _ bs h
    simpa [declaredNamesList, declaredNamesElem, List.append_assoc] using ih

end

theorem stringFoldlAppend (l : List String) : ∀ a : String,
    l.foldl (fun r s => r ++ s) a = a ++ l.foldl (fun r s => r ++ s) "" := by
  induction l with
  | nil => intro a; simp [List.foldl, String.append_empty]
  | cons x xs ih =>
    intro a
    simp only [List.foldl]
    rw [ih (a ++ x), ih ("" ++ x), String.empty_append, String.append_assoc]

theorem joinCons (a : String) (l : List String) :
    String.join (a :: l) = a ++ String.join l := by
  simp only [String.join, List.foldl]
  rw [String.empty_append, stringFoldlAppend]

theorem concatTag_eq_originalString : ∀ (subs : List Value) (cooked raws : List String),
    cooked.length = subs.length + 1 →
    concatTag ⟨cooked, raws⟩ subs = originalString cooked subs := by
  intro subs
  induction subs with
  | nil =>
    intro cooked raws h
    cases cooked with
    | nil => simp at h
    | cons l ls =>
      have hls : ls = [] := List.length_eq_zero.mp (by simpa using h)
      subst hls
      simp [concatTag, originalString, String.join, String.append_empty]
  | cons s ss ih =>
    intro cooked raws h
    cases cooked with
    | nil => simp at h
    | cons l ls =>
      have hl : ls.length = ss.length + 1 := by simpa using h
      have ihl := ih ls raws hl
      simp only [concatTag, originalString, List.map_cons, List.cons_append,
        List.zip_cons_cons]
      rw [joinCons]
      exact congrArg (fun t => l ++ valueToString s ++ t) (by simpa [concatTag] using ihl)

/-- C1: matching any well-formed pattern against the nullish sentinel fails
with NullishSource (with no binding result), and NullishSource is the only
fatal evaluation error the matcher can produce. -/
theorem C1 :
    (∀ p : Pattern, construct p = .ok p →
      matchPattern p Value.undef = .error MatchError.NullishSource)
    ∧ (∀ (p : Pattern) (v : Value) (env : BindingResult) (e : MatchError),
      evalPat p v env = .error e → e = MatchError.NullishSource) := by
  constructor
  · intro p hc
    unfold matchPattern
    rw [hc]
    cases p <;> rfl
  · exact evalPat_error_nullish

/-- C1 witness: the pattern binding only x, applied to the sentinel. -/
theorem C1_witness :
    matchPattern pxOnly Value.undef = .error MatchError.NullishSource :=
  C1.1 pxOnly rfl

/-- C2: for an object pattern with no rest capture, a successful match binds
exactly the declared pattern names, whatever extra fields the source has. -/
theorem C2 (elems : PatList) (v : Value) (bs : BindingResult)
    (hnr : hasRestList elems = false)
    (h : matchPattern (Pattern.ObjectPattern elems) v = .ok bs) :
    bs.map Prod.fst = declaredNamesList elems := by
  unfold matchPattern at h
  cases hc : construct (Pattern.ObjectPattern elems) with
  | error e => rw [hc] at h; cases h
  | ok q =>
    rw [hc] at h
    have hq : q = Pattern.ObjectPattern elems := by
      unfold construct at hc
      split at hc
      · split at hc
        · exact (Except.ok.inj hc).symm
        · cases hc
      · cases hc
    subst hq
    simpa [declaredNames] using
      evalPat_keys (Pattern.ObjectPattern elems) v [] bs h

/-- C2 witness: the node object of src/05-destructuring.js with an extra
field, matched against the type/name pattern. -/
theorem C2_witness :
    ([("type", Value.str "Identifier"), ("name", Value.str "foo")]
        : BindingResult).map Prod.fst = declaredNamesList elemsC2 :=
  C2 elemsC2 nodeC2
    [("type", Value.str "Identifier"), ("name", Value.str "foo")] rfl rfl

/-- C3: the pattern a-b-rest matched against any sequence of length at least
two binds rest to the remaining elements, in order, of length n - 2. -/
theorem C3 (x0 x1 : Value) (tl : List Value) :
    matchPattern patC3 (Value.arr (x0 :: x1 :: tl))
      = .ok [("a", x0), ("b", x1), ("rest", Value.arr tl)]
    ∧ tl.length = (x0 :: x1 :: tl).length - 2 := by
  constructor
  · have hc : construct patC3 = .ok patC3 := rfl
    unfold matchPattern
    rw [hc]
    simp [patC3, evalPat, evalArr, elemsOf, isNullish, resolveLeaf_some_nodflt]
  · simp

/-- C4: a Name or Rename leaf whose field is absent or the sentinel binds the
evaluated default when one is present and the sentinel itself otherwise; the
example pattern a, b-renamedB-default-10 against a:1 yields exactly a:1,
renamedB:10. -/
theorem C4 :
    (∀ (d : DefExpr) (env : BindingResult),
      resolveLeaf none (some d) env = evalDef d env
      ∧ resolveLeaf (some Value.undef) (some d) env = evalDef d env)
    ∧ (∀ env : BindingResult,
      resolveLeaf none none env = Value.undef
      ∧ resolveLeaf (some Value.undef) none env = Value.undef)
    ∧ matchPattern patC4 (Value.obj [("a", Value.num 1)])
      = .ok [("a", Value.num 1), ("renamedB", Value.num 10)] :=
  ⟨fun _ _ => ⟨rfl, rfl⟩, fun _ => ⟨rfl, rfl⟩, rfl⟩

/-- C5: every successfully constructed pattern satisfies the rest-capture
invariant, and a pattern violating it is rejected eagerly with MalformedRest
for every source value, before any matching. -/
theorem C5 :
    (∀ p : Pattern, construct p = .ok p → restLastOk p = true)
    ∧ (∀ (p : Pattern) (v : Value), restLastOk p = false
      → matchPattern p v = .error MatchError.MalformedRest) := by
  constructor
  · intro p hc
    cases hr : restLastOk p with
    | true => rfl
    | false =>
      exfalso
      unfold construct at hc
      rw [hr] at hc
      simp at hc
  · intro p v hr
    have hcp : construct p = .error MatchError.MalformedRest := by
      unfold construct
      rw [hr]
      simp
    unfold matchPattern
    rw [hcp]

/-- C5 witness: a misplaced rest capture is rejected before matching. -/
theorem C5_witness :
    matchPattern badRestPat (Value.arr []) = .error MatchError.MalformedRest :=
  C5.2 badRestPat (Value.arr []) rfl

/-- C6: every successfully constructed pattern passes the left-to-right
default-reference check, and a pattern whose default references a name bound
only by a later element is rejected eagerly with ForwardReference for every
source value. -/
theorem C6 :
    (∀ p : Pattern, construct p = .ok p → defsOk p = true)
    ∧ (∀ (p : Pattern) (v : Value), restLastOk p = true → defsOk p = false
      → matchPattern p v = .error MatchError.ForwardReference) := by
  constructor
  · intro p hc
    cases hd : defsOk p with
    | true => rfl
    | false =>
      exfalso
      unfold construct at hc
      rw [hd] at hc
      split at hc <;> simp at hc
  · intro p v hr hd
    have hcp : construct p = .error MatchError.ForwardReference := by
      unfold construct
      rw [hr, hd]
      simp
    unfold matchPattern
    rw [hcp]

/-- C6 witness: a default referencing the later binding b is rejected. -/
theorem C6_witness :
    matchPattern fwdPat (Value.obj []) = .error MatchError.ForwardReference :=
  C6.2 fwdPat (Value.obj []) rfl rfl

/-- C7: the Template Tag Invoker checks the literal/substitution count
invariant before invocation; any violation yields the fatal CountMismatch
construction error, whatever the tag function is. -/
theorem C7 {α : Type} (rawLits cookedLits : List String) (subs : List Value)
    (tagFunction : TemplateLiterals → List Value → α)
    (h : ¬ (cookedLits.length = rawLits.length
      ∧ cookedLits.length = subs.length + 1)) :
    invoke rawLits cookedLits subs tagFunction
      = .error MatchError.CountMismatch := by
  unfold invoke
  rw [if_neg h]

/-- C7 witness: two cooked literals against one raw literal are rejected. -/
theorem C7_witness :
    invoke ["a"] ["a", "b"] [] (fun _ _ => "x")
      = .error MatchError.CountMismatch :=
  C7 ["a"] ["a", "b"] [] (fun _ _ => "x") (by decide)

/-- C8: on a well-formed invocation, the concatenating tag function
reproduces the original interpolated string exactly. -/
theorem C8 (cookedLits rawLits : List String) (subs : List Value)
    (hcr : cookedLits.length = rawLits.length)
    (hcs : cookedLits.length = subs.length + 1) :
    invoke rawLits cookedLits subs concatTag
      = .ok (originalString cookedLits subs) := by
  unfold invoke
  rw [if_pos ⟨hcr, hcs⟩]
  exact congrArg Except.ok (concatTag_eq_originalString subs cookedLits rawLits hcs)

/-- C8 witness: the items-cost example template of the tagged-template
notes round-trips. -/
theorem C8_witness :
    invoke ["", " items cost $", "."] ["", " items cost $", "."]
        [Value.num 10, Value.str "2.50"] concatTag
      = .ok (originalString ["", " items cost $", "."]
        [Value.num 10, Value.str "2.50"]) :=
  C8 ["", " items cost $", "."] ["", " items cost $", "."]
    [Value.num 10, Value.str "2.50"] rfl rfl

/-- C10: the rest-only array pattern binds r to a sequence element-wise equal
to the whole source array, for every array source. -/
theorem C10 (xs : List Value) :
    matchPattern patClone (Value.arr xs) = .ok [("r", Value.arr xs)] := by
  have hc : construct patClone = .ok patClone := rfl
  unfold matchPattern
  rw [hc]
  simp [patClone, evalPat, evalArr, elemsOf, isNullish]
